import Mathlib

/-!
# Verification of the GranolaMCP query/analytics engine

Shallow embedding of `granola_mcp/utils/date_parser.py` and
`granola_mcp/mcp/tools.py`.  Instants are modelled as `Int` seconds on the
canonical (CST) local time line; `datetime.timedelta` amounts become second
counts; Python strings are Lean `String`s processed as `List Char`.
Fallible Python functions (those raising `ValueError` / `MCPToolError`)
become `Except String`-valued functions.
-/

deriving instance DecidableEq for Except

namespace Granola

/-! ## Character classes and Python string primitives

Models of Python `str.strip`, `str.lower`, the `re` character classes
`[a-zA-Z]`, `\d`, `\s` (ASCII fragment), `int()` on digit strings, and
lexicographic string comparison (all stated on code points). -/

/-- Model of the regex class `[a-zA-Z]`. -/
def isAlphaChar (c : Char) : Bool :=
  (97 ≤ c.toNat && c.toNat ≤ 122) || (65 ≤ c.toNat && c.toNat ≤ 90)

/-- Model of the regex class `\d` (ASCII decimal digits). -/
def isDigitChar (c : Char) : Bool :=
  48 ≤ c.toNat && c.toNat ≤ 57

/-- Model of the regex class `\s` and of the characters removed by
`str.strip()` (ASCII whitespace fragment). -/
def isSpaceChar (c : Char) : Bool :=
  c.toNat = 32 || c.toNat = 9 || c.toNat = 10 || c.toNat = 13 ||
    c.toNat = 11 || c.toNat = 12

/-- Model of `str.lower` on one character (ASCII case mapping). -/
def lowerChar (c : Char) : Char :=
  if 65 ≤ c.toNat && c.toNat ≤ 90 then Char.ofNat (c.toNat + 32) else c

/-- Python lexicographic string comparison (`a <= b` on code points). -/
def lexLe : List Char → List Char → Bool
  | [], _ => true
  | _ :: _, [] => false
  | a :: as, b :: bs =>
    if a = b then lexLe as bs else decide (a.toNat < b.toNat)

/-- Model of `str.strip()`: drop whitespace from both ends. -/
def pyStrip (l : List Char) : List Char :=
  ((l.dropWhile isSpaceChar).reverse.dropWhile isSpaceChar).reverse

/-- Model of `str.lower()`. -/
def pyLower (l : List Char) : List Char :=
  l.map lowerChar

/-- Model of Python `int()` applied to a nonempty string of digits. -/
def digitsToNat (l : List Char) : Nat :=
  l.foldl (fun a c => a * 10 + (c.toNat - 48)) 0

/-! ## Calendar arithmetic

Proleptic-Gregorian day numbering (days since 1970-01-01), the standard
civil-calendar conversion used to model `datetime.date` /
`datetime.datetime` values as second counts. -/

/-- Leap-year rule of the Gregorian calendar (`calendar.isleap`). -/
def isLeapYear (y : Int) : Bool :=
  (y % 4 == 0 && y % 100 != 0) || (y % 400 == 0)

/-- Length of month `m` of year `y` (as validated by `strptime("%Y-%m-%d")`). -/
def daysInMonth (y m : Int) : Int :=
  if m = 2 then (if isLeapYear y then 29 else 28)
  else if m = 4 || m = 6 || m = 9 || m = 11 then 30
  else 31

/-- Day number (days since 1970-01-01) of the civil date `y-m-d`. -/
def daysFromCivil (y m d : Int) : Int :=
  let y' := if m ≤ 2 then y - 1 else y
  let era := y'.ediv 400
  let yoe := y' - era * 400
  let doy := (153 * (if m > 2 then m - 3 else m + 9) + 2).ediv 5 + d - 1
  let doe := yoe * 365 + yoe.ediv 4 - yoe.ediv 100 + doy
  era * 146097 + doe - 719468

/-- Civil date `(y, m, d)` of a day number (inverse of `daysFromCivil`). -/
def civilFromDays (z0 : Int) : Int × Int × Int :=
  let z := z0 + 719468
  let era := z.ediv 146097
  let doe := z - era * 146097
  let yoe := (doe - doe.ediv 1460 + doe.ediv 36524 - doe.ediv 146096).ediv 365
  let y := yoe + era * 400
  let doy := doe - (365 * yoe + yoe.ediv 4 - yoe.ediv 100)
  let mp := (5 * doy + 2).ediv 153
  let d := doy - (153 * mp + 2).ediv 5 + 1
  let m := if mp < 10 then mp + 3 else mp - 9
  (if m ≤ 2 then y + 1 else y, m, d)

/-- Seconds in one day. -/
def secPerDay : Int := 86400

/-- Local instant (seconds) of `y-m-d hh:mi:ss` in the canonical time zone. -/
def civilInstant (y m d hh mi ss : Int) : Int :=
  daysFromCivil y m d * secPerDay + (hh * 3600 + mi * 60 + ss)

/-- Model of `datetime.datetime.min.replace(tzinfo=cst)`:
0001-01-01 00:00:00 in the canonical time zone. -/
def dtMin : Int := civilInstant 1 1 1 0 0 0

/-- Python `date.weekday()` on a day number (Monday = 0; day 0,
1970-01-01, was a Thursday). -/
def weekdayOfDay (z : Int) : Int := (z + 3).emod 7

/-! ## `granola_mcp/utils/date_parser.py` -/

/-- The unit characters accepted by the relative-date grammar. -/
def unitChars : List Char := ['h', 'd', 'w', 'm', 'y']

/-- Seconds denoted by one relative-date unit: h = 1 hour, d = 24 hours,
w = 7 days, m = 30 days, y = 365 days (the `timedelta` built by
`parse_relative_date`). -/
def unitSeconds (u : Char) : Int :=
  if u = 'h' then 3600
  else if u = 'd' then 86400
  else if u = 'w' then 604800
  else if u = 'm' then 2592000
  else 31536000

/-- Match of the regex `^(\d+)([hdwmy])$` (on an already lowered string),
returning the amount and the unit character. -/
def matchRelative (l : List Char) : Option (Nat × Char) :=
  let ds := l.takeWhile isDigitChar
  match l.dropWhile isDigitChar with
  | [u] => if ds ≠ [] && u ∈ unitChars then some (digitsToNat ds, u) else none
  | _ => none

/-- Match of the regex `^\d{4}-\d{2}-\d{2}$`, returning `(y, m, d)`. -/
def matchBareDate (l : List Char) : Option (Nat × Nat × Nat) :=
  match l with
  | [y1, y2, y3, y4, h1, m1, m2, h2, d1, d2] =>
    if isDigitChar y1 && isDigitChar y2 && isDigitChar y3 && isDigitChar y4 &&
       h1 = '-' && isDigitChar m1 && isDigitChar m2 && h2 = '-' &&
       isDigitChar d1 && isDigitChar d2 then
      some (digitsToNat [y1, y2, y3, y4], digitsToNat [m1, m2], digitsToNat [d1, d2])
    else none
  | _ => none

/-- Match of the regex `^\d{2}:\d{2}:\d{2}$`, returning `(hh, mi, ss)`. -/
def matchTime (l : List Char) : Option (Nat × Nat × Nat) :=
  match l with
  | [a1, a2, c1, b1, b2, c2, e1, e2] =>
    if isDigitChar a1 && isDigitChar a2 && c1 = ':' && isDigitChar b1 &&
       isDigitChar b2 && c2 = ':' && isDigitChar e1 && isDigitChar e2 then
      some (digitsToNat [a1, a2], digitsToNat [b1, b2], digitsToNat [e1, e2])
    else none
  | _ => none

/-- Match of the regex `^(\d{4}-\d{2}-\d{2})\s+(\d{2}:\d{2}:\d{2})$`. -/
def matchDateTime (l : List Char) : Option ((Nat × Nat × Nat) × (Nat × Nat × Nat)) :=
  match matchBareDate (l.take 10) with
  | none => none
  | some ymd =>
    let rest := l.drop 10
    if (rest.takeWhile isSpaceChar).isEmpty then none
    else
      match matchTime (rest.dropWhile isSpaceChar) with
      | none => none
      | some hms => some (ymd, hms)

/-- `parse_relative_date(relative_str, reference_time)`: strip and lower the
input, match `^(\d+)([hdwmy])$`, and subtract `amount * unit` from the
reference instant.  Fails with the invalid-relative-date-format `ValueError`
otherwise. -/
def parseRelativeDate (s : String) (ref : Int) : Except String Int :=
  let l := pyLower (pyStrip s.data)
  match matchRelative l with
  | none => .error ("Invalid relative date format: " ++ String.mk l)
  | some (n, u) => .ok (ref - (n : Int) * unitSeconds u)

/-- The field validation performed by `strptime("%Y-%m-%d")` /
`strptime("%H:%M:%S")` inside `parse_absolute_date` (Python `datetime`
accepts years 1–9999). -/
def validCivil (y m d hh mi ss : Nat) : Bool :=
  1 ≤ y && y ≤ 9999 && 1 ≤ m && m ≤ 12 && 1 ≤ d && (d : Int) ≤ daysInMonth y m &&
  hh ≤ 23 && mi ≤ 59 && ss ≤ 59

/-- `parse_absolute_date(date_str, time_str)` on already-matched digit
groups: validate the fields and combine date and time in the canonical
time zone.  Fails with the invalid-date-format `ValueError` otherwise. -/
def parseAbsoluteDate (y m d hh mi ss : Nat) : Except String Int :=
  if validCivil y m d hh mi ss then
    .ok (civilInstant y m d hh mi ss)
  else
    .error "Invalid date format: expected YYYY-MM-DD"

/-- `parse_date(date_input, reference_time)`: strip the input; if it
contains an alphabetic character treat it as relative; otherwise try the
bare-date grammar, then the date-time grammar; otherwise fail. -/
def parseDate (s : String) (ref : Int) : Except String Int :=
  let l := pyStrip s.data
  if l.any isAlphaChar then
    parseRelativeDate (String.mk l) ref
  else
    match matchBareDate l with
    | some (y, m, d) => parseAbsoluteDate y m d 0 0 0
    | none =>
      match matchDateTime l with
      | some ((y, m, d), (hh, mi, ss)) => parseAbsoluteDate y m d hh mi ss
      | none => .error ("Invalid date format: " ++ String.mk l)

/-- The end-date resolution step of `get_date_range`: parse `end_date`,
and when the stripped string matches the bare-date regex, replace the time
fields by 23:59:59 (`end_dt.replace(hour=23, minute=59, second=59)`). -/
def resolveEndDate (endDate : String) (ref : Int) : Except String Int :=
  match parseDate endDate ref with
  | .error m => .error m
  | .ok e =>
    match matchBareDate (pyStrip endDate.data) with
    | some _ => .ok (e - e.emod secPerDay + 86399)
    | none => .ok e

/-- `get_date_range(start_date, end_date, reference_time)`: parse the start
expression; resolve the end expression (reference instant when omitted,
end-of-day adjusted when a bare date); swap the two when start > end. -/
def getDateRange (startDate : String) (endDate : Option String) (ref : Int) :
    Except String (Int × Int) :=
  match parseDate startDate ref with
  | .error m => .error m
  | .ok s =>
    match (match endDate with
           | none => Except.ok ref
           | some ed => resolveEndDate ed ref) with
    | .error m => .error m
    | .ok e => if s > e then .ok (e, s) else .ok (s, e)

/-! ## Data model

Modelled from the spec: the `Meeting` class (field extraction lives in
`granola_mcp/core/meeting.py`, outside the two source files) — identity,
optional start/end instants, derived optional duration, ordered participant
list, optional title/summary and optional transcript full text (spec §3).
`tools.py` only reads these fields. -/

structure Meeting where
  id : String
  title : Option String
  start_time : Option Int
  end_time : Option Int
  /-- `end − start` in seconds; absent when either bound is missing. -/
  duration : Option Int
  participants : List String
  summary : Option String
  /-- `transcript.full_text` when a transcript is present
  (`has_transcript()` ↔ `isSome`). -/
  transcript : Option String
deriving DecidableEq, Repr

/-! ## `granola_mcp/mcp/tools.py`: filter pipeline -/

/-- Python substring test `needle in hay`. -/
def pyIn (needle hay : List Char) : Bool :=
  (List.range (hay.length + 1)).any fun i => needle.isPrefixOf (hay.drop i)

/-- `_filter_meetings_by_date(meetings, from_date, to_date)`: resolve the
bounds (both → `get_date_range`; from only → `[parse(from), now]`; to only
→ `[datetime.min, parse(to)]`) and keep the meetings whose `start_time` is
present and within the closed interval. -/
def filterMeetingsByDate (now : Int) (meetings : List Meeting)
    (fromDate toDate : Option String) : Except String (List Meeting) :=
  match fromDate, toDate with
  | none, none => .ok meetings
  | _, _ =>
    let bounds : Except String (Int × Int) :=
      match fromDate, toDate with
      | some f, some t => getDateRange f (some t) now
      | some f, none =>
        match parseDate f now with
        | .error m => .error m
        | .ok s => .ok (s, now)
      | none, some t =>
        match parseDate t now with
        | .error m => .error m
        | .ok e => .ok (dtMin, e)
      | none, none => .ok (dtMin, now)
    match bounds with
    | .error m => .error m
    | .ok (s, e) =>
      .ok (meetings.filter fun m =>
        m.start_time.any fun st => decide (s ≤ st) && decide (st ≤ e))

/-- `_filter_meetings_by_participant`: keep meetings where the lowered
filter term is a substring of some lowered participant identifier. -/
def filterMeetingsByParticipant (meetings : List Meeting) (participant : String) :
    List Meeting :=
  let p := pyLower participant.data
  meetings.filter fun m => m.participants.any fun q => pyIn p (pyLower q.data)

/-- `_search_meetings_by_query`: case-insensitive substring match tried on
title, then summary, then transcript full text (first match wins). -/
def searchMeetingsByQuery (meetings : List Meeting) (query : String) :
    List Meeting :=
  let q := pyLower query.data
  meetings.filter fun m =>
    (m.title.any fun t => pyIn q (pyLower t.data)) ||
    (m.summary.any fun s => pyIn q (pyLower s.data)) ||
    (m.transcript.any fun tr => pyIn q (pyLower tr.data))

/-- `search_meetings(query, from_date, to_date, participant, limit)` on an
already-loaded meeting list: default `from_date = "3d"` when neither date
bound is supplied, then date filter → participant filter → query filter →
limit.  Returns the kept records (the Python result projects each record
to a summary dict, one per kept record). -/
def searchMeetings (now : Int) (meetings : List Meeting)
    (query : Option String) (fromDate toDate : Option String)
    (participant : Option String) (limit : Option Int) :
    Except String (List Meeting) :=
  let fromDate := if fromDate = none && toDate = none then some "3d" else fromDate
  let filtered :=
    if fromDate.isSome || toDate.isSome then
      filterMeetingsByDate now meetings fromDate toDate
    else .ok meetings
  match filtered with
  | .error m => .error m
  | .ok ms =>
    let ms := match participant with
      | some p => filterMeetingsByParticipant ms p
      | none => ms
    let ms := match query with
      | some q => searchMeetingsByQuery ms q
      | none => ms
    let ms := match limit with
      | some l => if l > 0 then ms.take l.toNat else ms
      | none => ms
    .ok ms

/-- `list_meetings(from_date, to_date, limit)`: alias of `search_meetings`
with no query and no participant filter. -/
def listMeetings (now : Int) (meetings : List Meeting)
    (fromDate toDate : Option String) (limit : Option Int) :
    Except String (List Meeting) :=
  searchMeetings now meetings none fromDate toDate none limit

/-! ## Counters

Model of `collections.Counter` / `defaultdict(int)`: an association list
in key-insertion order. -/

/-- One `counter[k] += 1` step. -/
def bucketAdd {α : Type} [DecidableEq α] (l : List (α × Nat)) (k : α) :
    List (α × Nat) :=
  if l.any fun kv => kv.1 = k then
    l.map fun kv => if kv.1 = k then (kv.1, kv.2 + 1) else kv
  else l ++ [(k, 1)]

/-- Build a counter from a stream of increment events. -/
def countAll {α : Type} [DecidableEq α] (keys : List α) : List (α × Nat) :=
  keys.foldl bucketAdd []

/-- Counter lookup (0 when the key is absent). -/
def counterGet {α : Type} [DecidableEq α] (l : List (α × Nat)) (k : α) : Nat :=
  match l.find? (fun kv => kv.1 = k) with
  | some kv => kv.2
  | none => 0

/-- `Counter.most_common(n)` / `max(items, key=count)` materialisation:
descending by count, ties kept in insertion order (stable sort). -/
def mostCommon {α : Type} (l : List (α × Nat)) : List (α × Nat) :=
  l.mergeSort fun a b => a.2 ≥ b.2

/-- Python `max(items, key=lambda x: x[1])`: the first item with maximal
count (`None` on an empty dict). -/
def peakOf {α : Type} (l : List (α × Nat)) : Option (α × Nat) :=
  l.foldl
    (fun best kv =>
      match best with
      | none => some kv
      | some b => if kv.2 > b.2 then some kv else some b)
    none

/-! ## `granola_mcp/mcp/tools.py`: aggregation engine

Durations are kept in seconds (`m.duration.total_seconds()`); the Python
minute thresholds 15/30/60/90 become 900/1800/3600/5400 seconds.  The
float-valued fields (`mean`, `median`, `stdev`, per-meeting averages and
the trend label, all computed with Python floats) are not modelled; every
claim under verification concerns only the exact integer-valued parts. -/

/-- Python truthiness of the optional duration field (`if m.duration`):
`timedelta(0)` is falsy, so the test passes exactly when the duration is
present and nonzero. -/
def hasDuration (m : Meeting) : Bool :=
  match m.duration with
  | some d => decide (d ≠ 0)
  | none => false

/-- The duration stream `[m.duration.total_seconds()/60 for m in meetings
if m.duration]`, in seconds: the records passing the truthiness test,
each mapped to its duration. -/
def durationsSec (meetings : List Meeting) : List Int :=
  (meetings.filter hasDuration).filterMap (·.duration)

/-- The five-bucket duration histogram of `_get_duration_statistics`.
Bucket names follow the Python dict keys. -/
structure DurationDistribution where
  b0_15 : Nat
  b15_30 : Nat
  b30_60 : Nat
  b60_90 : Nat
  b90_plus : Nat
deriving DecidableEq, Repr

/-- Classify one duration (seconds) into its histogram bucket. -/
def bumpBucket (acc : DurationDistribution) (d : Int) : DurationDistribution :=
  if d ≤ 900 then { acc with b0_15 := acc.b0_15 + 1 }
  else if d ≤ 1800 then { acc with b15_30 := acc.b15_30 + 1 }
  else if d ≤ 3600 then { acc with b30_60 := acc.b30_60 + 1 }
  else if d ≤ 5400 then { acc with b60_90 := acc.b60_90 + 1 }
  else { acc with b90_plus := acc.b90_plus + 1 }

/-- The histogram loop of `_get_duration_statistics`. -/
def distOf (ds : List Int) : DurationDistribution :=
  ds.foldl bumpBucket ⟨0, 0, 0, 0, 0⟩

/-- Sum of the five bucket counts. -/
def distSum (d : DurationDistribution) : Nat :=
  d.b0_15 + d.b15_30 + d.b30_60 + d.b60_90 + d.b90_plus

/-- The exact-valued fields of the `_get_duration_statistics` report. -/
structure DurationStats where
  total_meetings : Nat
  total_seconds : Int
  min_seconds : Int
  max_seconds : Int
  duration_distribution : DurationDistribution
deriving DecidableEq, Repr

/-- `_get_duration_statistics(meetings)`: `none` models the
`{"error": "No duration data available"}` marker returned when no meeting
has a duration. -/
def getDurationStatistics (meetings : List Meeting) : Option DurationStats :=
  match durationsSec meetings with
  | [] => none
  | d :: rest =>
    some
      { total_meetings := (durationsSec meetings).length
        total_seconds := (durationsSec meetings).sum
        min_seconds := rest.foldl min d
        max_seconds := rest.foldl max d
        duration_distribution := distOf (durationsSec meetings) }

/-- The exact-valued fields of the `_get_participant_statistics` report. -/
structure ParticipantStats where
  unique_participants : Nat
  total_participations : Nat
  max_meeting_size : Nat
  min_meeting_size : Nat
  top_participants : List (String × Nat)
  meeting_size_distribution : List (Nat × Nat)
deriving DecidableEq, Repr

/-- The participation stream: every participant of every meeting, in
iteration order. -/
def allParticipations (meetings : List Meeting) : List String :=
  (meetings.map (·.participants)).flatten

/-- `_get_participant_statistics(meetings)`: `none` models the
`{"error": "No participant data available"}` marker returned when the
participant counter is empty. -/
def getParticipantStatistics (meetings : List Meeting) : Option ParticipantStats :=
  let counts := countAll (allParticipations meetings)
  let sizes := meetings.map (·.participants.length)
  if counts.isEmpty then none
  else
    some
      { unique_participants := counts.length
        total_participations := (counts.map (·.2)).sum
        max_meeting_size := sizes.foldl max 0
        min_meeting_size :=
          match sizes with
          | [] => 0
          | s :: rest => rest.foldl min s
        top_participants := (mostCommon counts).take 10
        meeting_size_distribution := countAll sizes }

/-- Local calendar day of an instant (`start_time.date()`). -/
def dayOf (t : Int) : Int := t.ediv secPerDay

/-- Monday of the week of an instant
(`date - timedelta(days=weekday())`). -/
def mondayOf (t : Int) : Int := dayOf t - weekdayOfDay (dayOf t)

/-- Calendar `(year, month)` of an instant
(`f"{t.year}-{t.month:02d}"`). -/
def monthOf (t : Int) : Int × Int :=
  ((civilFromDays (dayOf t)).1, (civilFromDays (dayOf t)).2.1)

/-- Local hour of an instant (`start_time.hour`). -/
def hourOf (t : Int) : Int := (t.emod secPerDay).ediv 3600

/-- Day-of-week of an instant (`start_time.weekday()`, Monday = 0). -/
def dowOf (t : Int) : Int := weekdayOfDay (dayOf t)

/-- The `_get_frequency_statistics` report; day and week buckets are keyed
by day number, month buckets by `(year, month)`. -/
structure FrequencyStats where
  daily_frequency : List (Int × Nat)
  weekly_frequency : List (Int × Nat)
  monthly_frequency : List ((Int × Int) × Nat)
  peak_day : Option (Int × Nat)
  peak_week : Option (Int × Nat)
  peak_month : Option ((Int × Int) × Nat)
deriving DecidableEq, Repr

/-- The start instants of the meetings that have one, in order. -/
def startTimes (meetings : List Meeting) : List Int :=
  meetings.filterMap (·.start_time)

/-- `_get_frequency_statistics(meetings)`. -/
def getFrequencyStatistics (meetings : List Meeting) : FrequencyStats :=
  let daily := countAll ((startTimes meetings).map dayOf)
  let weekly := countAll ((startTimes meetings).map mondayOf)
  let monthly := countAll ((startTimes meetings).map monthOf)
  { daily_frequency := daily
    weekly_frequency := weekly
    monthly_frequency := monthly
    peak_day := peakOf daily
    peak_week := peakOf weekly
    peak_month := peakOf monthly }

/-- The English weekday names used by `_get_pattern_statistics`. -/
def dayNames : List String :=
  ["Monday", "Tuesday", "Wednesday", "Thursday", "Friday", "Saturday", "Sunday"]

/-- The `_get_pattern_statistics` report. -/
structure PatternStats where
  hourly_patterns : List (Int × Nat)
  daily_patterns : List (String × Nat)
  peak_hour : Option (Int × Nat)
  peak_day : Option String
deriving DecidableEq, Repr

/-- `_get_pattern_statistics(meetings)`. -/
def getPatternStatistics (meetings : List Meeting) : PatternStats :=
  let hourly := countAll ((startTimes meetings).map hourOf)
  let dow := countAll ((startTimes meetings).map dowOf)
  { hourly_patterns := hourly
    daily_patterns := dow.map fun kv => (dayNames.getD kv.1.toNat "", kv.2)
    peak_hour := peakOf hourly
    peak_day := (peakOf dow).map fun kv => dayNames.getD kv.1.toNat "" }

/-- The exact-valued fields of the `_get_summary_statistics` report. -/
structure SummaryStats where
  total_meetings : Nat
  date_coverage : String
  duration_coverage : String
  transcript_coverage : String
  /-- `(earliest, latest, span_days)`; `none` when no meeting has a date. -/
  date_range : Option (Int × Int × Int)
  /-- `(total, min, max)` in seconds; `none` when no meeting has a
  duration. -/
  duration_statistics : Option (Int × Int × Int)
  unique_participants : Nat
  total_participations : Nat
deriving DecidableEq, Repr

/-- The `f"{k}/{n}" if n > 0 else "0/0"` coverage strings. -/
def coverage (k n : Nat) : String :=
  if n > 0 then toString k ++ "/" ++ toString n else "0/0"

/-- `_get_summary_statistics(meetings)`. -/
def getSummaryStatistics (meetings : List Meeting) : SummaryStats :=
  let n := meetings.length
  let dates := startTimes meetings
  let ds := durationsSec meetings
  { total_meetings := n
    date_coverage := coverage dates.length n
    duration_coverage := coverage ds.length n
    transcript_coverage := coverage (meetings.filter (·.transcript.isSome)).length n
    date_range :=
      match dates with
      | [] => none
      | t :: rest =>
        let earliest := rest.foldl min t
        let latest := rest.foldl max t
        some (earliest, latest, (latest - earliest).ediv secPerDay)
    duration_statistics :=
      match ds with
      | [] => none
      | d :: rest => some (ds.sum, rest.foldl min d, rest.foldl max d)
    unique_participants := (allParticipations meetings).dedup.length
    total_participations := (meetings.map (·.participants.length)).sum }

/-- The dispatch result of `get_statistics`. -/
inductive StatResult where
  | summary (s : SummaryStats)
  | frequency (f : FrequencyStats)
  | duration (d : Option DurationStats)
  | participants (p : Option ParticipantStats)
  | patterns (p : PatternStats)
deriving DecidableEq, Repr

/-- `get_statistics(stat_type, from_date, to_date)` over an
already-loaded meeting list: optional date filter, then dispatch on the
statistics type (unknown types fail with `MCPToolError`). -/
def getStatistics (now : Int) (meetings : List Meeting) (statType : String)
    (fromDate toDate : Option String) : Except String StatResult :=
  let filtered :=
    if fromDate.isSome || toDate.isSome then
      filterMeetingsByDate now meetings fromDate toDate
    else .ok meetings
  match filtered with
  | .error m => .error m
  | .ok ms =>
  match statType with
  | "summary" => .ok (.summary (getSummaryStatistics ms))
  | "frequency" => .ok (.frequency (getFrequencyStatistics ms))
  | "duration" => .ok (.duration (getDurationStatistics ms))
  | "participants" => .ok (.participants (getParticipantStatistics ms))
  | "patterns" => .ok (.patterns (getPatternStatistics ms))
  | _ => .error ("Unknown statistics type: " ++ statType)

/-! ## Pattern analyses (`analyze_patterns`) -/

/-- `tuple(sorted([p1, p2]))`. -/
def sortPair (p q : String) : String × String :=
  if lexLe p.data q.data then (p, q) else (q, p)

/-- The inner double loop of `_analyze_participant_patterns`: all sorted
pairs `(participants[i], participants[j])` with `i < j`, in loop order. -/
def pairsOfList : List String → List (String × String)
  | [] => []
  | p :: rest => rest.map (sortPair p) ++ pairsOfList rest

/-- The pair-increment events contributed by one meeting (guarded by
`len(participants) >= 2`). -/
def meetingPairs (m : Meeting) : List (String × String) :=
  if m.participants.length ≥ 2 then pairsOfList m.participants else []

/-- The pair-increment event stream over a meeting list. -/
def allPairs (meetings : List Meeting) : List (String × String) :=
  (meetings.map meetingPairs).flatten

/-- The `participant_pairs` counter of `_analyze_participant_patterns`. -/
def pairCounter (meetings : List Meeting) : List ((String × String) × Nat) :=
  countAll (allPairs meetings)

/-- Final value of `participant_pairs[pr]`. -/
def pairCount (meetings : List Meeting) (pr : String × String) : Nat :=
  counterGet (pairCounter meetings) pr

/-- `_analyze_participant_patterns(meetings)`: the participant statistics
together with `frequent_collaborations` (top-10 pairs) and
`most_frequent_pair`. -/
def analyzeParticipantPatterns (meetings : List Meeting) :
    Option ParticipantStats × List ((String × String) × Nat) ×
      Option ((String × String) × Nat) :=
  let sorted := mostCommon (pairCounter meetings)
  (getParticipantStatistics meetings, sorted.take 10, sorted.head?)

/-- The meetings passing `if m.start_time and m.duration`, date-sorted
(`dated_meetings` in `_analyze_duration_patterns`; Python `list.sort` is
stable).  A present `datetime` is always truthy, while a present duration
must also be nonzero (`timedelta(0)` is falsy). -/
def datedMeetings (meetings : List Meeting) : List Meeting :=
  (meetings.filter fun m => m.start_time.isSome && hasDuration m).mergeSort
    fun a b => a.start_time.getD dtMin ≤ b.start_time.getD dtMin

/-- The trend-analysis part of `_analyze_duration_patterns`: present
exactly when the guards `len(meetings) > 5` and `len(dated_meetings) > 2`
both pass; its payload is the two halves `durations[:n//2]` and
`durations[n//2:]` of the date-sorted duration sequence (the "increasing"
/ "decreasing" / "stable" label compares their float means and is not
modelled). -/
def durationTrend (meetings : List Meeting) : Option (List Int × List Int) :=
  if meetings.length > 5 then
    let dm := datedMeetings meetings
    if dm.length > 2 then
      let ds := dm.filterMap (·.duration)
      some (ds.take (ds.length / 2), ds.drop (ds.length / 2))
    else none
  else none

/-- `_analyze_duration_patterns(meetings)`: the duration statistics plus
the optional `trend_analysis` entry. -/
def analyzeDurationPatterns (meetings : List Meeting) :
    Option DurationStats × Option (List Int × List Int) :=
  (getDurationStatistics meetings, durationTrend meetings)

/-! ## Concrete records used in evaluations -/

/-- A meeting record with only the fields the claims exercise populated. -/
def mkMeeting (id : String) (st dur : Option Int) (ps : List String) : Meeting :=
  { id := id, title := none, start_time := st, end_time := none,
    duration := dur, participants := ps, summary := none, transcript := none }

/-- Six filtered records of which exactly three carry both a start date
and a duration. -/
def sixMeetingsThreeDated : List Meeting :=
  [mkMeeting "1" (some 100) (some 600) [],
   mkMeeting "2" (some 200) (some 600) [],
   mkMeeting "3" (some 300) (some 600) [],
   mkMeeting "4" none none [],
   mkMeeting "5" none none [],
   mkMeeting "6" none none []]

/-- One meeting with three distinct participants. -/
def threeParticipantMeeting : List Meeting :=
  [mkMeeting "m" none none ["a@x.com", "b@x.com", "c@x.com"]]

/-- Two records with a known duration, one of them exactly zero. -/
def zeroDurationMeetings : List Meeting :=
  [mkMeeting "n" none (some 600) [], mkMeeting "z" none (some 0) []]

/-! ## Helper lemmas: characters and stripping -/

theorem char_eq_of_toNat_eq {c d : Char} (h : c.toNat = d.toNat) : c = d := by
  have h1 : Char.ofNat c.toNat = Char.ofNat d.toNat := by rw [h]
  rwa [Char.ofNat_toNat, Char.ofNat_toNat] at h1

theorem digit_not_alpha {c : Char} (h : isDigitChar c = true) :
    isAlphaChar c = false := by
  simp only [isDigitChar, Bool.and_eq_true, decide_eq_true_eq] at h
  simp only [isAlphaChar, Bool.or_eq_false_iff, Bool.and_eq_false_iff,
    decide_eq_false_iff_not, not_le]
  omega

theorem digit_not_space {c : Char} (h : isDigitChar c = true) :
    isSpaceChar c = false := by
  simp only [isDigitChar, Bool.and_eq_true, decide_eq_true_eq] at h
  simp only [isSpaceChar, Bool.or_eq_false_iff, decide_eq_false_iff_not]
  omega

theorem digit_lower {c : Char} (h : isDigitChar c = true) : lowerChar c = c := by
  simp only [isDigitChar, Bool.and_eq_true, decide_eq_true_eq] at h
  simp only [lowerChar, Bool.and_eq_true, decide_eq_true_eq]
  rw [if_neg]
  omega

theorem unit_not_digit {u : Char} (h : u ∈ unitChars) : isDigitChar u = false := by
  simp only [unitChars, List.mem_cons, List.not_mem_nil, or_false] at h
  rcases h with rfl | rfl | rfl | rfl | rfl <;> decide

theorem unit_not_space {u : Char} (h : u ∈ unitChars) : isSpaceChar u = false := by
  simp only [unitChars, List.mem_cons, List.not_mem_nil, or_false] at h
  rcases h with rfl | rfl | rfl | rfl | rfl <;> decide

theorem unit_lower {u : Char} (h : u ∈ unitChars) : lowerChar u = u := by
  simp only [unitChars, List.mem_cons, List.not_mem_nil, or_false] at h
  rcases h with rfl | rfl | rfl | rfl | rfl <;> decide

theorem dropWhile_eq_self_of_head {p : Char → Bool} {l : List Char}
    (h : ∀ c, l.head? = some c → p c = false) : l.dropWhile p = l := by
  cases l with
  | nil => rfl
  | cons c cs =>
    have hc := h c rfl
    simp [List.dropWhile, hc]

theorem head?_dropWhile_false {p : Char → Bool} {l : List Char} {c : Char}
    (h : (l.dropWhile p).head? = some c) : p c = false := by
  induction l with
  | nil => simp [List.dropWhile] at h
  | cons x xs ih =>
    by_cases hx : p x
    · rw [List.dropWhile_cons_of_pos hx] at h
      exact ih h
    · rw [List.dropWhile_cons_of_neg hx] at h
      simp only [List.head?_cons, Option.some.injEq] at h
      subst h
      exact Bool.eq_false_iff.mpr hx

theorem pyStrip_eq_self {l : List Char} (h : ∀ c ∈ l, isSpaceChar c = false) :
    pyStrip l = l := by
  unfold pyStrip
  rw [dropWhile_eq_self_of_head (fun c hc => h c (List.mem_of_mem_head? hc))]
  rw [dropWhile_eq_self_of_head
    (fun c hc => h c (List.mem_reverse.mp (List.mem_of_mem_head? hc)))]
  exact List.reverse_reverse l

theorem pyStrip_idem (l : List Char) : pyStrip (pyStrip l) = pyStrip l := by
  unfold pyStrip
  set A := l.dropWhile isSpaceChar with hA
  set B := A.reverse.dropWhile isSpaceChar with hB
  have hdropB : B.dropWhile isSpaceChar = B :=
    dropWhile_eq_self_of_head fun c hc => head?_dropWhile_false (hB ▸ hc)
  have hdropBrev : B.reverse.dropWhile isSpaceChar = B.reverse := by
    apply dropWhile_eq_self_of_head
    intro c hc
    rw [List.head?_reverse] at hc
    rcases List.dropWhile_suffix (l := A.reverse) (p := isSpaceChar) with ⟨t, ht⟩
    have hBne : B ≠ [] := by
      intro hnil
      rw [hnil] at hc
      simp at hc
    have hlast : (t ++ B).getLast? = B.getLast? :=
      List.getLast?_append_of_ne_nil t hBne
    rw [ht] at hlast
    rw [List.getLast?_reverse] at hlast
    have hAhead : A.head? = some c := by rw [hlast]; exact hc
    exact head?_dropWhile_false (hA ▸ hAhead)
  rw [hdropBrev, List.reverse_reverse, hdropB]

theorem takeWhile_append_last {p : Char → Bool} {ds : List Char} {u : Char}
    (hds : ∀ c ∈ ds, p c = true) (hu : p u = false) :
    (ds ++ [u]).takeWhile p = ds ∧ (ds ++ [u]).dropWhile p = [u] := by
  induction ds with
  | nil => simp [List.takeWhile, List.dropWhile, hu]
  | cons c cs ih =>
    have hc : p c = true := hds c (List.mem_cons_self c cs)
    have ihr := ih fun x hx => hds x (List.mem_cons_of_mem c hx)
    constructor
    · simp only [List.cons_append, List.takeWhile_cons, hc, if_true]
      rw [ihr.1]
    · simp only [List.cons_append, List.dropWhile_cons, hc, if_true]
      exact ihr.2

theorem pyLower_eq_self {l : List Char} (h : ∀ c ∈ l, lowerChar c = c) :
    pyLower l = l :=
  (List.map_congr_left h).trans (List.map_id l)

/-! ## Helper lemmas: counter semantics -/

theorem counterGet_bucketAdd {α : Type} [DecidableEq α] (l : List (α × Nat))
    (k k' : α) :
    counterGet (bucketAdd l k) k' = counterGet l k' + (if k' = k then 1 else 0) := by
  unfold bucketAdd counterGet
  by_cases hmem : l.any (fun kv => kv.1 = k)
  · rw [if_pos hmem]
    rw [List.find?_map]
    have hcomp :
        ((fun kv : α × Nat => decide (kv.1 = k')) ∘
          fun kv : α × Nat => if kv.1 = k then (kv.1, kv.2 + 1) else kv) =
        fun kv : α × Nat => decide (kv.1 = k') := by
      funext kv
      by_cases hk : kv.1 = k <;> simp [hk]
    rw [hcomp]
    cases hfind : l.find? (fun kv => kv.1 = k') with
    | none =>
      by_cases hkk : k' = k
      · subst hkk
        rcases List.any_eq_true.mp hmem with ⟨kv, hkv, hp⟩
        have := List.find?_eq_none.mp hfind kv hkv
        simp at this hp
        exact absurd hp this
      · simp [hkk]
    | some kv =>
      have hkv : kv.1 = k' := by
        have := List.find?_some hfind
        simpa using this
      by_cases hkk : k' = k
      · subst hkk
        simp [Option.map_some, hkv, if_pos]
      · have : ¬ kv.1 = k := by rw [hkv]; exact hkk
        simp [Option.map_some, this, hkk]
  · rw [if_neg hmem]
    rw [List.find?_append]
    cases hfind : l.find? (fun kv => kv.1 = k') with
    | none =>
      by_cases hkk : k' = k
      · subst hkk
        simp [List.find?]
      · simp [List.find?, Ne.symm hkk, hkk]
    | some kv =>
      have hkv : kv.1 = k' := by
        have := List.find?_some hfind
        simpa using this
      by_cases hkk : k' = k
      · subst hkk
        exfalso
        apply hmem
        exact List.any_eq_true.mpr ⟨kv, List.mem_of_find?_eq_some hfind, by simp [hkv]⟩
      · simp [Option.or, hkk]

theorem counterGet_foldl {α : Type} [DecidableEq α] (keys : List α) :
    ∀ (acc : List (α × Nat)) (k : α),
      counterGet (keys.foldl bucketAdd acc) k = counterGet acc k + keys.count k := by
  induction keys with
  | nil => simp [List.count]
  | cons k0 rest ih =>
    intro acc k
    rw [List.foldl_cons, ih (bucketAdd acc k0) k, counterGet_bucketAdd]
    rw [List.count_cons]
    have heq : (if k = k0 then 1 else 0) = (if (k0 == k) = true then 1 else 0) := by
      by_cases h : k = k0
      · subst h; simp
      · rw [if_neg h, if_neg]
        simp only [beq_iff_eq]
        exact fun hc => h hc.symm
    rw [heq]
    omega

theorem counterGet_countAll {α : Type} [DecidableEq α] (keys : List α) (k : α) :
    counterGet (countAll keys) k = keys.count k := by
  unfold countAll
  rw [counterGet_foldl]
  simp [counterGet, List.find?]

/-! ## Helper lemmas: lexicographic order and sorted pairs -/

theorem string_eq_of_data {p q : String} (h : p.data = q.data) : p = q := by
  cases p
  cases q
  exact congrArg String.mk h

theorem lexLe_total (x : List Char) : ∀ y, lexLe x y = true ∨ lexLe y x = true := by
  induction x with
  | nil => intro y; left; rfl
  | cons a as ih =>
    intro y
    cases y with
    | nil => right; rfl
    | cons b bs =>
      by_cases hab : a = b
      · subst hab
        simp only [lexLe, if_pos rfl]
        exact ih bs
      · have hne : a.toNat ≠ b.toNat := fun h => hab (char_eq_of_toNat_eq h)
        simp only [lexLe, if_neg hab, if_neg (Ne.symm hab)]
        rcases Nat.lt_or_ge a.toNat b.toNat with h | h
        · left; exact decide_eq_true h
        · right; exact decide_eq_true (by omega)

theorem lexLe_antisymm (x : List Char) :
    ∀ y, lexLe x y = true → lexLe y x = true → x = y := by
  induction x with
  | nil =>
    intro y _ h2
    cases y with
    | nil => rfl
    | cons b bs => simp [lexLe] at h2
  | cons a as ih =>
    intro y h1 h2
    cases y with
    | nil => simp [lexLe] at h1
    | cons b bs =>
      by_cases hab : a = b
      · subst hab
        simp only [lexLe, if_pos rfl] at h1 h2
        rw [ih bs h1 h2]
      · simp only [lexLe, if_neg hab, if_neg (Ne.symm hab),
          decide_eq_true_eq] at h1 h2
        omega

theorem sortPair_self_iff {x y p : String} :
    sortPair x y = (p, p) ↔ x = p ∧ y = p := by
  unfold sortPair
  split
  · simp [Prod.ext_iff]
  · simp only [Prod.ext_iff]
    exact and_comm

theorem sortPair_eq_iff {p q : String} (hpq : p ≠ q) (x y : String) :
    sortPair x y = sortPair p q ↔ (x = p ∧ y = q) ∨ (x = q ∧ y = p) := by
  unfold sortPair
  split <;> rename_i h1 <;> split <;> rename_i h2 <;>
    simp only [Prod.ext_iff] <;> constructor
  · rintro ⟨rfl, rfl⟩; exact Or.inl ⟨rfl, rfl⟩
  · rintro (⟨rfl, rfl⟩ | ⟨rfl, rfl⟩)
    · exact ⟨rfl, rfl⟩
    · exact absurd (string_eq_of_data (lexLe_antisymm _ _ h2 h1)) hpq
  · rintro ⟨rfl, rfl⟩; exact Or.inr ⟨rfl, rfl⟩
  · rintro (⟨rfl, rfl⟩ | ⟨rfl, rfl⟩)
    · exact absurd h1 h2
    · exact ⟨rfl, rfl⟩
  · rintro ⟨rfl, rfl⟩; exact Or.inr ⟨rfl, rfl⟩
  · rintro (⟨rfl, rfl⟩ | ⟨rfl, rfl⟩)
    · exact absurd h2 h1
    · exact ⟨rfl, rfl⟩
  · rintro ⟨rfl, rfl⟩; exact Or.inl ⟨rfl, rfl⟩
  · rintro (⟨rfl, rfl⟩ | ⟨rfl, rfl⟩)
    · exact ⟨rfl, rfl⟩
    · rcases lexLe_total x.data y.data with h | h
      · exact absurd h h1
      · exact absurd h h2

/-! ## Helper lemmas: pair counting -/

theorem allPairs_cons (m : Meeting) (rest : List Meeting) :
    allPairs (m :: rest) = meetingPairs m ++ allPairs rest := by
  simp [allPairs]

theorem two_le_length_of_two_mem {l : List String} {p q : String}
    (hp : p ∈ l) (hq : q ∈ l) (hpq : p ≠ q) : 2 ≤ l.length := by
  rcases l with _ | ⟨x, _ | ⟨y, t⟩⟩
  · cases hp
  · simp only [List.mem_singleton] at hp hq
    exact absurd (hp.trans hq.symm) hpq
  · simp only [List.length_cons]
    omega

theorem count_pairsOfList_self {l : List String} (hnd : l.Nodup) (p : String) :
    (pairsOfList l).count (p, p) = 0 := by
  induction l with
  | nil => rfl
  | cons x xs ih =>
    obtain ⟨hxnotin, hxs⟩ := List.nodup_cons.mp hnd
    rw [pairsOfList, List.count_append]
    have hx : (xs.map (sortPair x)).count (p, p) = 0 := by
      rw [List.count_eq_zero]
      intro hmem
      rcases List.mem_map.mp hmem with ⟨y, hy, hsp⟩
      obtain ⟨rfl, rfl⟩ := sortPair_self_iff.mp hsp
      exact hxnotin hy
    rw [hx, ih hxs]

theorem count_pairsOfList_distinct {l : List String} (hnd : l.Nodup)
    {p q : String} (hpq : p ≠ q) :
    (pairsOfList l).count (sortPair p q) =
      if p ∈ l ∧ q ∈ l then 1 else 0 := by
  induction l with
  | nil => simp [pairsOfList]
  | cons x xs ih =>
    obtain ⟨hxnotin, hxs⟩ := List.nodup_cons.mp hnd
    rw [pairsOfList, List.count_append, ih hxs]
    have hmap : (xs.map (sortPair x)).count (sortPair p q) =
        if (x = p ∧ q ∈ xs) ∨ (x = q ∧ p ∈ xs) then 1 else 0 := by
      rw [List.count_eq_countP, List.countP_map]
      by_cases hxp : x = p
      · subst hxp
        have hcong : ∀ y ∈ xs,
            (((· == sortPair x q) ∘ sortPair x) y = true ↔ (y == q) = true) := by
          intro y _
          simp only [Function.comp_apply, beq_iff_eq]
          rw [sortPair_eq_iff hpq]
          constructor
          · rintro (⟨_, rfl⟩ | ⟨hxq, _⟩)
            · rfl
            · exact absurd hxq hpq
          · rintro rfl
            exact Or.inl ⟨rfl, rfl⟩
        rw [List.countP_congr hcong, ← List.count_eq_countP]
        by_cases hq : q ∈ xs
        · rw [List.count_eq_one_of_mem hxs hq, if_pos (Or.inl ⟨rfl, hq⟩)]
        · rw [List.count_eq_zero.mpr hq, if_neg]
          rintro (⟨_, hq'⟩ | ⟨hxq, _⟩)
          · exact hq hq'
          · exact hpq hxq
      · by_cases hxq : x = q
        · subst hxq
          have hcong : ∀ y ∈ xs,
              (((· == sortPair p x) ∘ sortPair x) y = true ↔ (y == p) = true) := by
            intro y _
            simp only [Function.comp_apply, beq_iff_eq]
            rw [sortPair_eq_iff hpq]
            constructor
            · rintro (⟨hxp', _⟩ | ⟨_, rfl⟩)
              · exact absurd hxp' hxp
              · rfl
            · rintro rfl
              exact Or.inr ⟨rfl, rfl⟩
          rw [List.countP_congr hcong, ← List.count_eq_countP]
          by_cases hp : p ∈ xs
          · rw [List.count_eq_one_of_mem hxs hp, if_pos (Or.inr ⟨rfl, hp⟩)]
          · rw [List.count_eq_zero.mpr hp, if_neg]
            rintro (⟨hxp', _⟩ | ⟨_, hp'⟩)
            · exact hxp hxp'
            · exact hp hp'
        · have hcong : ∀ y ∈ xs,
              (((· == sortPair p q) ∘ sortPair x) y = true ↔
                ((fun _ => false) y : Bool) = true) := by
            intro y _
            simp only [Function.comp_apply, beq_iff_eq, Bool.false_eq_true,
              iff_false]
            rw [sortPair_eq_iff hpq]
            rintro (⟨hxp', _⟩ | ⟨hxq', _⟩)
            · exact hxp hxp'
            · exact hxq hxq'
          rw [List.countP_congr hcong, if_neg]
          · simp
          · rintro (⟨hxp', _⟩ | ⟨hxq', _⟩)
            · exact hxp hxp'
            · exact hxq hxq'
    rw [hmap]
    simp only [List.mem_cons]
    by_cases hA : x = p ∧ q ∈ xs ∨ x = q ∧ p ∈ xs
    · rw [if_pos hA]
      have hB : ¬(p ∈ xs ∧ q ∈ xs) := by
        rintro ⟨hp2, hq2⟩
        rcases hA with ⟨rfl, _⟩ | ⟨rfl, _⟩
        · exact hxnotin hp2
        · exact hxnotin hq2
      rw [if_neg hB]
      have hC : (p = x ∨ p ∈ xs) ∧ (q = x ∨ q ∈ xs) := by
        rcases hA with ⟨rfl, hq2⟩ | ⟨rfl, hp2⟩
        · exact ⟨Or.inl rfl, Or.inr hq2⟩
        · exact ⟨Or.inr hp2, Or.inl rfl⟩
      rw [if_pos hC]
    · rw [if_neg hA]
      by_cases hB : p ∈ xs ∧ q ∈ xs
      · rw [if_pos hB, if_pos ⟨Or.inr hB.1, Or.inr hB.2⟩]
      · rw [if_neg hB, if_neg]
        rintro ⟨hp2 | hp2, hq2 | hq2⟩
        · exact hpq (hp2.trans hq2.symm)
        · exact hA (Or.inl ⟨hp2.symm, hq2⟩)
        · exact hA (Or.inr ⟨hq2.symm, hp2⟩)
        · exact hB ⟨hp2, hq2⟩

theorem count_meetingPairs_self {m : Meeting} (hnd : m.participants.Nodup)
    (p : String) : (meetingPairs m).count (p, p) = 0 := by
  unfold meetingPairs
  split
  · exact count_pairsOfList_self hnd p
  · exact List.count_nil _

theorem count_meetingPairs_distinct {m : Meeting} (hnd : m.participants.Nodup)
    {p q : String} (hpq : p ≠ q) :
    (meetingPairs m).count (sortPair p q) =
      if p ∈ m.participants ∧ q ∈ m.participants then 1 else 0 := by
  unfold meetingPairs
  split
  · exact count_pairsOfList_distinct hnd hpq
  · rename_i hlen
    rw [List.count_nil, if_neg]
    rintro ⟨hp, hq⟩
    exact hlen (two_le_length_of_two_mem hp hq hpq)

theorem count_pair_instances (pr : String × String) (l : List (String × String)) :
    @List.count _ instBEqOfDecidableEq pr l = @List.count _ instBEqProd pr l := by
  induction l with
  | nil => rfl
  | cons a t ih =>
    rw [@List.count_cons _ instBEqOfDecidableEq, @List.count_cons _ instBEqProd, ih]
    have h1 : (@BEq.beq _ instBEqOfDecidableEq a pr) = decide (a = pr) := rfl
    have h2 : (@BEq.beq _ instBEqProd a pr) = decide (a = pr) := by
      obtain ⟨a1, a2⟩ := a
      obtain ⟨p1, p2⟩ := pr
      show (a1 == p1 && a2 == p2) = decide ((a1, a2) = (p1, p2))
      by_cases e1 : a1 = p1 <;> by_cases e2 : a2 = p2 <;> simp [e1, e2]
    rw [h1, h2]

theorem pairCount_eq_count (ms : List Meeting) (pr : String × String) :
    pairCount ms pr = (allPairs ms).count pr := by
  unfold pairCount pairCounter
  exact (counterGet_countAll (allPairs ms) pr).trans (count_pair_instances pr _)

/-! ## Helper lemmas: date parsing -/

theorem matchRelative_append {ds : List Char} {u : Char}
    (hne : ds ≠ []) (hdig : ∀ c ∈ ds, isDigitChar c = true) (hu : u ∈ unitChars) :
    matchRelative (ds ++ [u]) = some (digitsToNat ds, u) := by
  have htd := takeWhile_append_last (p := isDigitChar) hdig (unit_not_digit hu)
  unfold matchRelative
  rw [htd.1, htd.2]
  simp [hne, hu]

theorem matchBareDate_no_alpha {l : List Char} {y m d : Nat}
    (h : matchBareDate l = some (y, m, d)) : l.any isAlphaChar = false := by
  unfold matchBareDate at h
  split at h
  · rename_i y1 y2 y3 y4 h1 m1 m2 h2 d1 d2
    split at h
    · rename_i hcond
      simp only [Bool.and_eq_true, decide_eq_true_eq] at hcond
      obtain ⟨⟨⟨⟨⟨⟨⟨⟨⟨hy1, hy2⟩, hy3⟩, hy4⟩, hh1⟩, hm1⟩, hm2⟩, hh2⟩, hd1⟩, hd2⟩ := hcond
      subst hh1
      subst hh2
      simp only [List.any_cons, List.any_nil, Bool.or_eq_false_iff]
      refine ⟨digit_not_alpha hy1, digit_not_alpha hy2, digit_not_alpha hy3,
        digit_not_alpha hy4, by decide, digit_not_alpha hm1, digit_not_alpha hm2,
        by decide, digit_not_alpha hd1, digit_not_alpha hd2, ?_⟩
      trivial
    · exact absurd h (by simp)
  · exact absurd h (by simp)

theorem parseDate_of_bareDate {s : String} {now : Int} {y m d : Nat}
    (h : matchBareDate (pyStrip s.data) = some (y, m, d)) :
    parseDate s now = parseAbsoluteDate y m d 0 0 0 := by
  have halpha := matchBareDate_no_alpha h
  simp only [parseDate]
  rw [halpha]
  rw [if_neg (by simp)]
  rw [h]

/-! ## Claim theorems -/

/-- C4: whenever `get_date_range` succeeds on a pair of date expressions,
the returned range `(lo, hi)` satisfies `lo ≤ hi`: a descending resolution
is silently swapped, never returned descending and never an error. -/
theorem getDateRange_ordered (a b : String) (now lo hi : Int)
    (h : getDateRange a (some b) now = .ok (lo, hi)) : lo ≤ hi := by
  unfold getDateRange at h
  split at h
  · exact absurd h (by simp)
  · split at h
    · exact absurd h (by simp)
    · split at h
      · rename_i hc
        simp only [Except.ok.injEq, Prod.mk.injEq] at h
        obtain ⟨rfl, rfl⟩ := h
        omega
      · rename_i hc
        simp only [Except.ok.injEq, Prod.mk.injEq] at h
        obtain ⟨rfl, rfl⟩ := h
        omega

/-- C4 witness: `get_date_range("2025-01-12", "2025-01-10")` succeeds with
an ascending range. -/
theorem getDateRange_ordered_witness : (1736553599 : Int) ≤ 1736640000 :=
  getDateRange_ordered "2025-01-12" "2025-01-10" 0 1736553599 1736640000 (by decide)

/-- C8: for every relative expression `<n><unit>` (a nonempty digit string
denoting `n` followed by a unit in `{h, d, w, m, y}`) and every reference
instant, `parse_relative_date` returns the reference minus `n` times the
unit length, with h = 1 hour, d = 24 hours, w = 7 days, m = 30 days and
y = 365 days. -/
theorem parseRelativeDate_correct (ds : List Char) (u : Char) (n : Nat) (ref : Int)
    (hne : ds ≠ []) (hdig : ∀ c ∈ ds, isDigitChar c = true)
    (hu : u ∈ unitChars) (hval : digitsToNat ds = n) :
    parseRelativeDate (String.mk (ds ++ [u])) ref =
      .ok (ref - (n : Int) * unitSeconds u) := by
  unfold parseRelativeDate
  have hnospace : ∀ c ∈ ds ++ [u], isSpaceChar c = false := by
    intro c hc
    rcases List.mem_append.mp hc with hc | hc
    · exact digit_not_space (hdig c hc)
    · rw [List.mem_singleton] at hc
      subst hc
      exact unit_not_space hu
  have hlower : ∀ c ∈ ds ++ [u], lowerChar c = c := by
    intro c hc
    rcases List.mem_append.mp hc with hc | hc
    · exact digit_lower (hdig c hc)
    · rw [List.mem_singleton] at hc
      subst hc
      exact unit_lower hu
  show (match matchRelative (pyLower (pyStrip (ds ++ [u]))) with
        | none => Except.error _
        | some (n, u) => Except.ok (ref - (n : Int) * unitSeconds u)) = _
  rw [pyStrip_eq_self hnospace, pyLower_eq_self hlower,
    matchRelative_append hne hdig hu, hval]

/-- C8 witness: `parse_relative_date("3d", ref)` at `ref = 1000000`. -/
theorem parseRelativeDate_correct_witness :
    parseRelativeDate (String.mk (['3'] ++ ['d'])) 1000000 =
      .ok (1000000 - (3 : Nat) * unitSeconds 'd') :=
  parseRelativeDate_correct ['3'] 'd' 3 1000000 (by decide) (by decide)
    (by decide) (by decide)

/-- C6: an input whose stripped form contains an alphabetic character but
does not match the relative grammar `^\d+[hdwmy]$` (after lowering) makes
`parse_date` fail with the invalid-relative-date-format `ValueError`; it
never reaches the absolute-date grammars. -/
theorem parseDate_alpha_invalid (s : String) (now : Int)
    (halpha : (pyStrip s.data).any isAlphaChar = true)
    (hnomatch : matchRelative (pyLower (pyStrip s.data)) = none) :
    parseDate s now =
      .error ("Invalid relative date format: " ++
        String.mk (pyLower (pyStrip s.data))) := by
  simp only [parseDate]
  rw [halpha, if_pos rfl]
  unfold parseRelativeDate
  show (match matchRelative (pyLower (pyStrip (pyStrip s.data))) with
        | none => Except.error ("Invalid relative date format: " ++
            String.mk (pyLower (pyStrip (pyStrip s.data))))
        | some (n, u) => Except.ok (now - (n : Int) * unitSeconds u)) = _
  rw [pyStrip_idem, hnomatch]

/-- C6 witness: `parse_date("3x")` fails with the relative-format error. -/
theorem parseDate_alpha_invalid_witness :
    parseDate "3x" 0 = .error ("Invalid relative date format: " ++
      String.mk (pyLower (pyStrip "3x".data))) :=
  parseDate_alpha_invalid "3x" 0 (by decide) (by decide)

/-- C5: a bare absolute date `YYYY-MM-DD` parses (as a range start, or via
`parse_date`) to 00:00:00 of that civil day, and resolves as a range end
to 23:59:59 of that same day; any end expression that is not a bare
absolute date (relative or date-time) receives no end-of-day
adjustment. -/
theorem bareDate_start_end_resolution (e : String) (now u : Int) (y m d : Nat)
    (hre : matchBareDate (pyStrip e.data) = some (y, m, d))
    (hp : parseDate e now = .ok u) :
    u = civilInstant y m d 0 0 0 ∧
    resolveEndDate e now = .ok (civilInstant y m d 23 59 59) ∧
    ∀ s : String, matchBareDate (pyStrip s.data) = none →
      resolveEndDate s now = parseDate s now := by
  rw [parseDate_of_bareDate hre] at hp
  unfold parseAbsoluteDate at hp
  split at hp
  · have hu : u = civilInstant y m d 0 0 0 := by
      simpa using hp.symm
    refine ⟨hu, ?_, ?_⟩
    · unfold resolveEndDate
      rw [parseDate_of_bareDate hre]
      unfold parseAbsoluteDate
      rw [if_pos (by assumption), hre]
      have hcal : civilInstant y m d 0 0 0 = daysFromCivil y m d * secPerDay := by
        unfold civilInstant
        ring
      have hmod : (civilInstant y m d 0 0 0).emod secPerDay = 0 := by
        rw [hcal]
        exact Int.mul_emod_left _ _
      simp only [Nat.cast_zero]
      show Except.ok (civilInstant y m d 0 0 0 -
          (civilInstant y m d 0 0 0).emod secPerDay + 86399) =
        Except.ok (civilInstant y m d 23 59 59)
      rw [hmod, sub_zero, hcal]
      unfold civilInstant secPerDay
      congr 1
    · intro s hs
      unfold resolveEndDate
      rw [hs]
      cases parseDate s now <;> rfl
  · exact absurd hp (by simp)

/-- C5 witness: `"2025-01-10"` as a start resolves to midnight, as an end
to 23:59:59 of 2025-01-10; the relative end `"3d"` is unadjusted. -/
theorem bareDate_start_end_resolution_witness :
    (1736467200 : Int) = civilInstant 2025 1 10 0 0 0 ∧
    resolveEndDate "2025-01-10" 5 = .ok (civilInstant 2025 1 10 23 59 59) ∧
    resolveEndDate "3d" 5 = parseDate "3d" 5 := by
  have h := bareDate_start_end_resolution "2025-01-10" 5 1736467200 2025 1 10
    (by decide) (by decide)
  exact ⟨h.1, h.2.1, h.2.2 "3d" (by decide)⟩

/-! ## Helper lemmas: duration statistics -/

theorem distSum_bumpBucket (acc : DurationDistribution) (d : Int) :
    distSum (bumpBucket acc d) = distSum acc + 1 := by
  unfold bumpBucket distSum
  split_ifs <;> simp <;> omega

theorem distSum_foldl (ds : List Int) :
    ∀ acc : DurationDistribution,
      distSum (ds.foldl bumpBucket acc) = distSum acc + ds.length := by
  induction ds with
  | nil => intro acc; simp
  | cons d rest ih =>
    intro acc
    rw [List.foldl_cons, ih (bumpBucket acc d), distSum_bumpBucket,
      List.length_cons]
    omega

theorem distSum_distOf (ds : List Int) : distSum (distOf ds) = ds.length := by
  unfold distOf
  rw [distSum_foldl]
  simp [distSum]

theorem durationsSec_length (ms : List Meeting) :
    (durationsSec ms).length = (ms.filter hasDuration).length := by
  unfold durationsSec
  induction ms with
  | nil => rfl
  | cons m rest ih =>
    rw [List.filter_cons]
    by_cases h : hasDuration m = true
    · obtain ⟨d, hd⟩ : ∃ d, m.duration = some d := by
        unfold hasDuration at h
        rcases hmd : m.duration with _ | d
        · rw [hmd] at h
          simp at h
        · exact ⟨d, rfl⟩
      rw [if_pos h, List.filterMap_cons, hd]
      simp [ih]
    · rw [if_neg h]
      exact ih

/-- C9 counterexample: over two records with known durations 600 s and
0 s, the histogram's bucket counts sum to 1 while 2 records have a known
duration — Python's `if m.duration` truthiness test drops the
`timedelta(0)` record, so the claimed equality with the known-duration
count fails. -/
theorem zeroDuration_excluded_from_histogram :
    getDurationStatistics zeroDurationMeetings =
      some { total_meetings := 1, total_seconds := 600, min_seconds := 600,
             max_seconds := 600, duration_distribution := ⟨1, 0, 0, 0, 0⟩ } ∧
    (zeroDurationMeetings.filter fun m => m.duration.isSome).length = 2 :=
  ⟨rfl, rfl⟩

/-- C9 amended: the five-bucket duration histogram partitions the records
with a truthy duration (present and nonzero — `timedelta(0)` is falsy, so
`if m.duration` excludes zero-duration records): whenever
`_get_duration_statistics` returns a report, the bucket counts sum to the
number of filtered records with a present, nonzero duration, and the
no-data marker occurs exactly when that number is zero. -/
theorem durationDistribution_partitions (ms : List Meeting) :
    match getDurationStatistics ms with
    | none => (ms.filter hasDuration).length = 0
    | some s => distSum s.duration_distribution =
        (ms.filter hasDuration).length := by
  rw [← durationsSec_length]
  rcases hds : durationsSec ms with _ | ⟨d, rest⟩
  · have hnone : getDurationStatistics ms = none := by
      unfold getDurationStatistics
      rw [hds]
    rw [hnone]
    rfl
  · have hsome : getDurationStatistics ms = some
        { total_meetings := (d :: rest).length
          total_seconds := (d :: rest).sum
          min_seconds := rest.foldl min d
          max_seconds := rest.foldl max d
          duration_distribution := distOf (d :: rest) } := by
      unfold getDurationStatistics
      rw [hds]
    rw [hsome]
    show distSum (distOf (d :: rest)) = (d :: rest).length
    exact distSum_distOf _

/-! ## C2: when the duration trend analysis is computed -/

/-- C2 counterexample: six filtered records of which only three have both
a start date and a (nonzero) duration — fewer than the claimed "more than
5" — yet the trend analysis is computed. -/
theorem durationTrend_with_three_dated :
    (durationTrend sixMeetingsThreeDated).isSome = true ∧
    (sixMeetingsThreeDated.filter fun m =>
      m.start_time.isSome && hasDuration m).length = 3 := by
  constructor
  · have hlen : (datedMeetings sixMeetingsThreeDated).length = 3 := by
      unfold datedMeetings
      rw [List.length_mergeSort]
      decide
    simp only [durationTrend]
    rw [if_pos (by decide), if_pos (by omega)]
    rfl
  · decide

/-- C2 amended: the trend analysis of `_analyze_duration_patterns` is
present if and only if the filtered record list has more than 5 records in
total and more than 2 of them pass `if m.start_time and m.duration`, i.e.
have both a start date and a present, nonzero duration (`timedelta(0)` is
falsy in Python). -/
theorem durationTrend_iff (ms : List Meeting) :
    (durationTrend ms).isSome = true ↔
      5 < ms.length ∧
      2 < (ms.filter fun m => m.start_time.isSome && hasDuration m).length := by
  have hlen : (datedMeetings ms).length =
      (ms.filter fun m => m.start_time.isSome && hasDuration m).length := by
    unfold datedMeetings
    rw [List.length_mergeSort]
  simp only [durationTrend]
  split_ifs with h1 h2
  · simp only [Option.isSome_some, true_iff]
    exact ⟨h1, by omega⟩
  · simp only [Option.isSome_none, Bool.false_eq_true, false_iff, not_and]
    intro _ hc
    rw [← hlen] at hc
    omega
  · simp only [Option.isSome_none, Bool.false_eq_true, false_iff, not_and]
    intro hc
    omega

/-- C7: every statistics type over an empty filtered record sequence
returns a structured result with an explicit empty or no-data marker
(`none` models the `{"error": ...}` dicts, `"0/0"` the empty coverage
strings) — each dispatch succeeds, so no exception escapes. -/
theorem getStatistics_empty_markers :
    getStatistics 0 [] "summary" none none =
      .ok (.summary ⟨0, "0/0", "0/0", "0/0", none, none, 0, 0⟩) ∧
    getStatistics 0 [] "frequency" none none =
      .ok (.frequency ⟨[], [], [], none, none, none⟩) ∧
    getStatistics 0 [] "duration" none none = .ok (.duration none) ∧
    getStatistics 0 [] "participants" none none = .ok (.participants none) ∧
    getStatistics 0 [] "patterns" none none = .ok (.patterns ⟨[], [], none, none⟩) :=
  ⟨rfl, rfl, rfl, rfl, rfl⟩

/-! ## C1: the default date window of `search_meetings` -/

/-- C1 counterexample: with no date arguments, a record whose
`start_time` is 1 second after now — present and well above now − 3 days —
is dropped by `search_meetings`, because the default window also imposes
`start_time ≤ now`. -/
theorem searchMeetings_drops_future_record :
    searchMeetings 1000000 [mkMeeting "m1" (some 1000001) none []]
      none none none none none = .ok [] ∧
    (1000000 : Int) - 3 * 86400 ≤ 1000001 := by
  constructor
  · rfl
  · decide

/-- C1 amended: when neither `from_date` nor `to_date` is supplied,
`search_meetings` (and its alias `list_meetings`) keeps exactly the
records whose `start_time` is present and inside the closed window
`[now − 3 days, now]` — the implicit default is a two-sided window whose
upper bound is now, so records with `start_time` after now are excluded. -/
theorem searchMeetings_default_window (now : Int) (ms : List Meeting) :
    searchMeetings now ms none none none none none =
      .ok (ms.filter fun m => m.start_time.any fun st =>
        decide (now - 259200 ≤ st) && decide (st ≤ now)) ∧
    listMeetings now ms none none none =
      searchMeetings now ms none none none none none :=
  ⟨rfl, rfl⟩

/-! ## C10: filtering with only `to_date` supplied -/

/-- C10: when only `to_date` is supplied, no default lower bound is
applied: for every record whose `start_time` is a representable datetime
(at least `datetime.min`), `search_meetings` keeps it exactly when its
`start_time` is present and at most the resolved `to_date` instant. -/
theorem searchMeetings_toDate_only (now e : Int) (ms : List Meeting) (t : String)
    (hp : parseDate t now = .ok e)
    (hmin : ∀ m ∈ ms, ∀ st : Int, m.start_time = some st → dtMin ≤ st) :
    searchMeetings now ms none none (some t) none none =
      .ok (ms.filter fun m => m.start_time.any fun st => decide (st ≤ e)) := by
  have hf : filterMeetingsByDate now ms none (some t) =
      .ok (ms.filter fun m => m.start_time.any fun st =>
        decide (dtMin ≤ st) && decide (st ≤ e)) := by
    show (match (match parseDate t now with
                 | .error msg => Except.error msg
                 | .ok e2 => Except.ok (dtMin, e2) : Except String (Int × Int)) with
          | .error msg => Except.error msg
          | .ok (s, e2) =>
            Except.ok (ms.filter fun mr : Meeting =>
              mr.start_time.any fun st => decide (s ≤ st) && decide (st ≤ e2))) = _
    rw [hp]
  show (match filterMeetingsByDate now ms none (some t) with
        | .error m => Except.error m
        | .ok ms2 => Except.ok ms2) = _
  rw [hf]
  show Except.ok _ = Except.ok _
  congr 1
  apply List.filter_congr
  intro m hm
  cases hst : m.start_time with
  | none => rfl
  | some st =>
    have hd := hmin m hm st hst
    simp [Option.any_some, hd]

/-- C10 witness: with `to_date = "1970-01-02"` (resolving to instant
86400) and two records, exactly the record at instant 100 is kept. -/
theorem searchMeetings_toDate_only_witness :
    searchMeetings 0
      [mkMeeting "a" (some 100) none [], mkMeeting "b" (some 90000) none []]
      none none (some "1970-01-02") none none =
      .ok ([mkMeeting "a" (some 100) none [],
            mkMeeting "b" (some 90000) none []].filter fun m =>
        m.start_time.any fun st => decide (st ≤ 86400)) := by
  apply searchMeetings_toDate_only
  · decide
  · decide

/-! ## C3: participant pair counting -/

theorem count_allPairs_distinct {p q : String} (hpq : p ≠ q) :
    ∀ ms : List Meeting, (∀ m ∈ ms, m.participants.Nodup) →
      (allPairs ms).count (sortPair p q) =
        (ms.filter fun m =>
          decide (p ∈ m.participants) && decide (q ∈ m.participants)).length := by
  intro ms
  induction ms with
  | nil => intro _; rfl
  | cons m rest ih =>
    intro h
    rw [allPairs_cons, List.count_append,
      count_meetingPairs_distinct (h m (List.mem_cons_self m rest)) hpq,
      ih fun m2 hm2 => h m2 (List.mem_cons_of_mem m hm2)]
    rw [List.filter_cons]
    by_cases hc : p ∈ m.participants ∧ q ∈ m.participants
    · rw [if_pos hc, if_pos (by simp [hc.1, hc.2])]
      rw [List.length_cons]
      omega
    · rw [if_neg hc, if_neg (by simpa using fun hp2 hq2 => hc ⟨hp2, hq2⟩)]
      omega

theorem count_allPairs_self (p : String) :
    ∀ ms : List Meeting, (∀ m ∈ ms, m.participants.Nodup) →
      (allPairs ms).count (p, p) = 0 := by
  intro ms
  induction ms with
  | nil => intro _; rfl
  | cons m rest ih =>
    intro h
    rw [allPairs_cons, List.count_append,
      count_meetingPairs_self (h m (List.mem_cons_self m rest)) p,
      ih fun m2 hm2 => h m2 (List.mem_cons_of_mem m hm2)]

/-- C3 counterexample: a meeting whose participant list repeats the same
identifier makes the pair counter count a same-identifier pair — the pair
`("a@x.com", "a@x.com")` ends with count 1, not 0. -/
theorem pairCount_self_pair_counted :
    pairCount [mkMeeting "m" none none ["a@x.com", "a@x.com"]]
      ("a@x.com", "a@x.com") = 1 := by
  rfl

/-- C3 amended: over meetings whose participant lists contain no duplicate
entries, each unordered pair of distinct co-occurring participants is
counted exactly once per meeting containing both (so the final counter
value is the number of such meetings), and no same-identifier pair is ever
counted.  (With duplicate entries the loop counts index pairs, so a pair
can be counted more than once and self-pairs appear.) -/
theorem pairCount_nodup (ms : List Meeting)
    (h : ∀ m ∈ ms, m.participants.Nodup) :
    (∀ p q : String, p ≠ q → pairCount ms (sortPair p q) =
      (ms.filter fun m =>
        decide (p ∈ m.participants) && decide (q ∈ m.participants)).length) ∧
    (∀ p : String, pairCount ms (p, p) = 0) := by
  constructor
  · intro p q hpq
    rw [pairCount_eq_count]
    exact count_allPairs_distinct hpq ms h
  · intro p
    rw [pairCount_eq_count]
    exact count_allPairs_self p ms h

/-- C3 witness: the meeting `["a@x.com", "b@x.com", "c@x.com"]`
contributes exactly the 3 unordered pairs, each with count 1, and no
self-pair. -/
theorem pairCount_nodup_witness :
    pairCount threeParticipantMeeting (sortPair "a@x.com" "b@x.com") = 1 ∧
    pairCount threeParticipantMeeting (sortPair "a@x.com" "c@x.com") = 1 ∧
    pairCount threeParticipantMeeting (sortPair "b@x.com" "c@x.com") = 1 ∧
    pairCount threeParticipantMeeting ("a@x.com", "a@x.com") = 0 := by
  have h := pairCount_nodup threeParticipantMeeting (by decide)
  refine ⟨?_, ?_, ?_, h.2 "a@x.com"⟩
  · rw [h.1 "a@x.com" "b@x.com" (by decide)]
    decide
  · rw [h.1 "a@x.com" "c@x.com" (by decide)]
    decide
  · rw [h.1 "b@x.com" "c@x.com" (by decide)]
    decide

end Granola
